import Mathlib

/-!
Shallow embedding of the risk-modeling notebook (VaR & CVaR):
`calculate_var`, `calculate_cvar`, `kupiec_test`, `monte_carlo_var`.

Return series are embedded as lists of rationals (exact arithmetic in place
of floating point); real-valued library routines (square root, logarithm,
exponential, the scipy distribution quantile functions) are embedded over ℝ,
the scipy distribution interface as an explicit capability structure.
-/

namespace RiskModeling

/-- Exception sites of the notebook: the explicit `ValueError` raised for an
unrecognized method string, numpy's rejection of a percentile outside
`[0, 100]`, and numpy's error on reducing/indexing an empty array. -/
inductive PyError where
  | invalidMethod
  | percentileRange
  | emptyData
  deriving DecidableEq, Repr

/-- Linear interpolation between adjacent order statistics at virtual index
`h`, as numpy's default (linear / type-7) percentile computes it:
`a[⌊h⌋] + (h - ⌊h⌋) * (a[⌊h⌋+1] - a[⌊h⌋])`, the out-of-range access at the
top end clamped to `a[⌊h⌋]` (it is only reached with weight zero). -/
def interp (s : List ℚ) (h : ℚ) : ℚ :=
  s.getD ⌊h⌋₊ 0 + (h - (⌊h⌋₊ : ℚ)) * (s.getD (⌊h⌋₊ + 1) (s.getD ⌊h⌋₊ 0) - s.getD ⌊h⌋₊ 0)

/-- `np.percentile(xs, q)` with the default linear interpolation: validate
`q ∈ [0, 100]`, fail on an empty array, otherwise sort ascending and
interpolate at virtual index `q/100 * (n-1)`. -/
def npPercentile (xs : List ℚ) (q : ℚ) : Except PyError ℚ :=
  if q < 0 ∨ 100 < q then .error .percentileRange
  else if xs = [] then .error .emptyData
  else .ok (interp (xs.insertionSort (· ≤ ·)) (q / 100 * ((xs.length : ℚ) - 1)))

/-- `np.mean`. -/
def npMean (xs : List ℚ) : ℚ := xs.sum / (xs.length : ℚ)

/-- The population variance underlying `np.std` (numpy's default `ddof = 0`). -/
def npVarPop (xs : List ℚ) : ℚ :=
  (xs.map (fun x => (x - npMean xs) ^ 2)).sum / (xs.length : ℚ)

/-- `np.std`: the square root of the population variance. -/
noncomputable def npStd (xs : List ℚ) : ℝ := Real.sqrt ((npVarPop xs : ℚ) : ℝ)

/-- Capability interface for the scipy.stats routines the notebook calls as
black boxes: the standard normal quantile function (`norm.ppf` is evaluated
as `loc + scale * Φ⁻¹(p)`), and the Student-t maximum-likelihood fit
`t.fit` with its quantile function `t.ppf`. -/
structure StatsLib where
  stdNormPpf : ℚ → ℝ
  tFit : List ℚ → ℝ × ℝ × ℝ
  tPpf : ℚ → ℝ × ℝ × ℝ → ℝ

/-- `calculate_var(returns, confidence_level, method)`: dispatch on the method
string exactly as the notebook does — `'historical'` is `np.percentile` at
`100*(1-confidence_level)`, `'normal'` is `norm.ppf(1-confidence_level, mu,
sigma)` with sample mean and `np.std`, `'t-dist'` is `t.ppf(1-confidence_level,
*t.fit(returns))`, and anything else raises `ValueError`. -/
noncomputable def calculate_var (lib : StatsLib) (returns : List ℚ)
    (confidence_level : ℚ) (method : String) : Except PyError ℝ :=
  if method = "historical" then
    (npPercentile returns (100 * (1 - confidence_level))).map (fun v : ℚ => (v : ℝ))
  else if method = "normal" then
    .ok ((npMean returns : ℝ) + npStd returns * lib.stdNormPpf (1 - confidence_level))
  else if method = "t-dist" then
    .ok (lib.tPpf (1 - confidence_level) (lib.tFit returns))
  else
    .error .invalidMethod

/-- `calculate_cvar(returns, confidence_level)`: the historical VaR threshold
via `calculate_var`, then the mean of all returns `≤` that threshold. -/
noncomputable def calculate_cvar (lib : StatsLib) (returns : List ℚ)
    (confidence_level : ℚ) : Except PyError ℝ :=
  (calculate_var lib returns confidence_level "historical").map (fun var =>
    let tail := returns.filter (fun x : ℚ => decide ((x : ℝ) ≤ var))
    (tail.map (fun x : ℚ => (x : ℝ))).sum / (tail.length : ℝ))

/-- The likelihood-ratio statistic of `kupiec_test`, exactly as the notebook
computes it: `failures` counts returns strictly below the VaR estimate,
`p_actual = failures.mean()`, `p_expected = 1 - confidence_level`, and
`LR = -2*(log((1-p_a)^(n-f) * p_a^f) - log((1-p_e)^(n-f) * p_e^f))`. -/
noncomputable def kupiec_LR (returns : List ℚ) (var confidence_level : ℚ) : ℝ :=
  let n := returns.length
  let failures := returns.countP (fun x => decide (x < var))
  let p_actual : ℝ := (failures : ℝ) / (n : ℝ)
  let p_expected : ℝ := 1 - (confidence_level : ℝ)
  let likelihood_ratio : ℝ :=
    -2 * (Real.log ((1 - p_actual) ^ (n - failures) * p_actual ^ failures)
        - Real.log ((1 - p_expected) ^ (n - failures) * p_expected ^ failures))
  likelihood_ratio

/-- `kupiec_test` passes (does not reject) exactly when the likelihood-ratio
statistic is strictly below the hardcoded critical value `5.024`. -/
noncomputable def kupiec_test (returns : List ℚ) (var confidence_level : ℚ) : Prop :=
  kupiec_LR returns var confidence_level < 5.024

/-- `monte_carlo_var(returns, days, simulations)` with the random shocks made
an explicit argument and the global `portfolio_value` a parameter: drift
`mu - 0.5*sigma²`, per-day gross returns `exp(drift + sigma*shock)`, terminal
value per path the product over days scaled by the portfolio value, then the
sorted terminal values are indexed at `int(0.05 * simulations)`. -/
noncomputable def monte_carlo_var (portfolio_value : ℝ) (returns : List ℚ)
    (days simulations : ℕ) (shocks : Fin days → Fin simulations → ℝ) : ℝ :=
  let mu : ℚ := npMean returns
  let sigma : ℝ := npStd returns
  let drift : ℝ := (mu : ℝ) - 0.5 * sigma ^ 2
  let portfolio_path : List ℝ :=
    List.ofFn (fun j => portfolio_value * ∏ d, Real.exp (drift + sigma * shocks d j))
  let sorted_returns := portfolio_path.insertionSort (· ≤ ·)
  let var_index : ℕ := ⌊(0.05 : ℚ) * (simulations : ℚ)⌋₊
  portfolio_value - sorted_returns.getD var_index 0

/-- Minimum of a series, read off the head of its ascending sort. -/
def listMin (xs : List ℚ) : ℚ := (xs.insertionSort (· ≤ ·)).getD 0 0

/-- Maximum of a series, read off the last entry of its ascending sort. -/
def listMax (xs : List ℚ) : ℚ :=
  (xs.insertionSort (· ≤ ·)).getD (xs.length - 1) 0

/-- A throwaway instantiation of the scipy interface, used to evaluate the
branches of `calculate_var` that never consult the library. -/
noncomputable def trivLib : StatsLib :=
  { stdNormPpf := fun _ => 0, tFit := fun _ => (0, 0, 0), tPpf := fun _ _ => 0 }

/-- An instantiation of the scipy interface whose quantile functions are
monotone in the probability, as the real scipy ones are. -/
noncomputable def monoLib : StatsLib :=
  { stdNormPpf := fun p => (p : ℚ), tFit := fun _ => (0, 0, 0),
    tPpf := fun p _ => (p : ℚ) }

/-! ### Order and interpolation lemmas about the sorted series -/

lemma sorted_sort (xs : List ℚ) : (xs.insertionSort (· ≤ ·)).Sorted (· ≤ ·) :=
  List.sorted_insertionSort _ xs

lemma perm_sort (xs : List ℚ) : List.Perm (xs.insertionSort (· ≤ ·)) xs :=
  List.perm_insertionSort _ xs

lemma length_sort (xs : List ℚ) : (xs.insertionSort (· ≤ ·)).length = xs.length :=
  (perm_sort xs).length_eq

lemma getD_mono_of_sorted {s : List ℚ} (hs : s.Sorted (· ≤ ·)) {i j : ℕ} (hij : i ≤ j)
    (hj : j < s.length) (d d' : ℚ) : s.getD i d ≤ s.getD j d' := by
  have hi : i < s.length := lt_of_le_of_lt hij hj
  rw [List.getD_eq_get s d hi, List.getD_eq_get s d' hj]
  exact hs.rel_get_of_le hij

lemma getD_mem {s : List ℚ} {i : ℕ} (h : i < s.length) (d : ℚ) : s.getD i d ∈ s := by
  rw [List.getD_eq_get s d h]
  exact s.get_mem _ _

lemma interp_a_le_b {s : List ℚ} (hs : s.Sorted (· ≤ ·)) {i : ℕ} (hi : i < s.length) :
    s.getD i 0 ≤ s.getD (i + 1) (s.getD i 0) := by
  rcases lt_or_ge (i + 1) s.length with h | h
  · exact getD_mono_of_sorted hs (Nat.le_succ i) h 0 _
  · rw [List.getD_eq_default _ _ h]

lemma floor_lt_length {s : List ℚ} {h : ℚ} (h0 : 0 ≤ h) (h1 : h ≤ (s.length : ℚ) - 1) :
    ⌊h⌋₊ < s.length := by
  have hfl : (⌊h⌋₊ : ℚ) ≤ h := Nat.floor_le h0
  have : (⌊h⌋₊ : ℚ) < (s.length : ℚ) := by linarith
  exact_mod_cast this

lemma le_interp {s : List ℚ} (hs : s.Sorted (· ≤ ·)) {h : ℚ} (h0 : 0 ≤ h)
    (h1 : h ≤ (s.length : ℚ) - 1) : s.getD ⌊h⌋₊ 0 ≤ interp s h := by
  have hΔ : 0 ≤ s.getD (⌊h⌋₊ + 1) (s.getD ⌊h⌋₊ 0) - s.getD ⌊h⌋₊ 0 :=
    sub_nonneg.mpr (interp_a_le_b hs (floor_lt_length h0 h1))
  have hg : 0 ≤ h - (⌊h⌋₊ : ℚ) := sub_nonneg.mpr (Nat.floor_le h0)
  have := mul_nonneg hg hΔ
  rw [interp]
  linarith

lemma interp_le {s : List ℚ} (hs : s.Sorted (· ≤ ·)) {h : ℚ} (h0 : 0 ≤ h)
    (h1 : h ≤ (s.length : ℚ) - 1) :
    interp s h ≤ s.getD (⌊h⌋₊ + 1) (s.getD ⌊h⌋₊ 0) := by
  have hΔ : 0 ≤ s.getD (⌊h⌋₊ + 1) (s.getD ⌊h⌋₊ 0) - s.getD ⌊h⌋₊ 0 :=
    sub_nonneg.mpr (interp_a_le_b hs (floor_lt_length h0 h1))
  have hg : h - (⌊h⌋₊ : ℚ) ≤ 1 := by
    have := Nat.lt_floor_add_one h
    linarith
  have := mul_le_of_le_one_left hΔ hg
  rw [interp]
  linarith

lemma interp_mono {s : List ℚ} (hs : s.Sorted (· ≤ ·)) {h1 h2 : ℚ} (h0 : 0 ≤ h1)
    (h12 : h1 ≤ h2) (hub : h2 ≤ (s.length : ℚ) - 1) : interp s h1 ≤ interp s h2 := by
  have h0' : 0 ≤ h2 := le_trans h0 h12
  have h1ub : h1 ≤ (s.length : ℚ) - 1 := le_trans h12 hub
  have hii : ⌊h1⌋₊ ≤ ⌊h2⌋₊ := Nat.floor_mono h12
  rcases eq_or_lt_of_le hii with heq | hlt
  · have hΔ : 0 ≤ s.getD (⌊h1⌋₊ + 1) (s.getD ⌊h1⌋₊ 0) - s.getD ⌊h1⌋₊ 0 :=
      sub_nonneg.mpr (interp_a_le_b hs (floor_lt_length h0 h1ub))
    have hmul := mul_le_mul_of_nonneg_right
      (sub_le_sub_right h12 ((⌊h1⌋₊ : ℕ) : ℚ)) hΔ
    rw [interp, interp, ← heq]
    linarith
  · have hi2 : ⌊h2⌋₊ < s.length := floor_lt_length h0' hub
    have hi1b : ⌊h1⌋₊ + 1 < s.length := lt_of_le_of_lt hlt hi2
    calc interp s h1 ≤ s.getD (⌊h1⌋₊ + 1) (s.getD ⌊h1⌋₊ 0) := interp_le hs h0 h1ub
      _ ≤ s.getD ⌊h2⌋₊ 0 := getD_mono_of_sorted hs hlt hi2 _ _
      _ ≤ interp s h2 := le_interp hs h0' hub

lemma interp_lower {s : List ℚ} (hs : s.Sorted (· ≤ ·)) {h : ℚ} (h0 : 0 ≤ h)
    (h1 : h ≤ (s.length : ℚ) - 1) : s.getD 0 0 ≤ interp s h :=
  le_trans (getD_mono_of_sorted hs (Nat.zero_le _) (floor_lt_length h0 h1) 0 0)
    (le_interp hs h0 h1)

lemma interp_upper {s : List ℚ} (hs : s.Sorted (· ≤ ·)) {h : ℚ} (h0 : 0 ≤ h)
    (h1 : h ≤ (s.length : ℚ) - 1) : interp s h ≤ s.getD (s.length - 1) 0 := by
  refine le_trans (interp_le hs h0 h1) ?_
  rcases lt_or_ge (⌊h⌋₊ + 1) s.length with hb | hb
  · exact getD_mono_of_sorted hs (by omega) (by omega) _ _
  · have hi : ⌊h⌋₊ < s.length := floor_lt_length h0 h1
    have : ⌊h⌋₊ = s.length - 1 := by omega
    rw [List.getD_eq_default _ _ hb, this]

/-! ### Lemmas about `npPercentile` and the series extrema -/

lemma npPercentile_ok {xs : List ℚ} {q : ℚ} (h0 : 0 ≤ q) (h1 : q ≤ 100) (hne : xs ≠ []) :
    npPercentile xs q =
      .ok (interp (xs.insertionSort (· ≤ ·)) (q / 100 * ((xs.length : ℚ) - 1))) := by
  rw [npPercentile, if_neg (by push_neg; exact ⟨h0, h1⟩), if_neg hne]

lemma virtual_index_bounds {xs : List ℚ} (hne : xs ≠ []) {q : ℚ} (h0 : 0 ≤ q)
    (h1 : q ≤ 100) :
    0 ≤ q / 100 * ((xs.length : ℚ) - 1) ∧
      q / 100 * ((xs.length : ℚ) - 1) ≤ ((xs.insertionSort (· ≤ ·)).length : ℚ) - 1 := by
  have hn : 1 ≤ xs.length := List.length_pos.mpr hne
  have hn' : (1 : ℚ) ≤ (xs.length : ℚ) := by exact_mod_cast hn
  constructor
  · exact mul_nonneg (div_nonneg h0 (by norm_num)) (by linarith)
  · rw [length_sort]
    have hq : q / 100 ≤ 1 := (div_le_one (by norm_num)).mpr h1
    exact mul_le_of_le_one_left (by linarith) hq

lemma npPercentile_between {xs : List ℚ} (hne : xs ≠ []) {q : ℚ} (h0 : 0 ≤ q)
    (h1 : q ≤ 100) {v : ℚ} (hv : npPercentile xs q = .ok v) :
    listMin xs ≤ v ∧ v ≤ listMax xs := by
  rw [npPercentile_ok h0 h1 hne] at hv
  injection hv with hv
  subst hv
  obtain ⟨hb0, hb1⟩ := virtual_index_bounds hne h0 h1
  refine ⟨interp_lower (sorted_sort xs) hb0 hb1, ?_⟩
  have := interp_upper (sorted_sort xs) hb0 hb1
  rw [length_sort] at this
  exact this

lemma npPercentile_mono {xs : List ℚ} (hne : xs ≠ []) {q1 q2 : ℚ} (h0 : 0 ≤ q1)
    (h12 : q1 ≤ q2) (h1 : q2 ≤ 100) {v1 v2 : ℚ}
    (e1 : npPercentile xs q1 = .ok v1) (e2 : npPercentile xs q2 = .ok v2) : v1 ≤ v2 := by
  rw [npPercentile_ok h0 (le_trans h12 h1) hne] at e1
  rw [npPercentile_ok (le_trans h0 h12) h1 hne] at e2
  injection e1 with e1
  injection e2 with e2
  subst e1
  subst e2
  obtain ⟨hb0, _⟩ := virtual_index_bounds hne h0 (le_trans h12 h1)
  obtain ⟨_, hb1⟩ := virtual_index_bounds hne (le_trans h0 h12) h1
  refine interp_mono (sorted_sort xs) hb0 ?_ hb1
  have hn : 1 ≤ xs.length := List.length_pos.mpr hne
  have hn' : (1 : ℚ) ≤ (xs.length : ℚ) := by exact_mod_cast hn
  gcongr
  linarith

lemma listMin_mem {xs : List ℚ} (hne : xs ≠ []) : listMin xs ∈ xs := by
  have hl : 0 < (xs.insertionSort (· ≤ ·)).length := by
    rw [length_sort]
    exact List.length_pos.mpr hne
  exact (perm_sort xs).mem_iff.mp (getD_mem hl 0)

lemma listMin_le {xs : List ℚ} {x : ℚ} (hx : x ∈ xs) : listMin xs ≤ x := by
  have hx2 : x ∈ xs.insertionSort (· ≤ ·) := (perm_sort xs).mem_iff.mpr hx
  obtain ⟨n, hn⟩ := List.get_of_mem hx2
  have h := getD_mono_of_sorted (sorted_sort xs) (Nat.zero_le n.val) n.isLt 0 0
  rw [List.getD_eq_get _ 0 n.isLt] at h
  have h2 : listMin xs ≤ (xs.insertionSort (· ≤ ·)).get n := h
  rw [hn] at h2
  exact h2

lemma listMax_mem {xs : List ℚ} (hne : xs ≠ []) : listMax xs ∈ xs := by
  have hl : xs.length - 1 < (xs.insertionSort (· ≤ ·)).length := by
    rw [length_sort]
    have := List.length_pos.mpr hne
    omega
  exact (perm_sort xs).mem_iff.mp (getD_mem hl 0)

lemma le_listMax {xs : List ℚ} {x : ℚ} (hx : x ∈ xs) : x ≤ listMax xs := by
  have hx2 : x ∈ xs.insertionSort (· ≤ ·) := (perm_sort xs).mem_iff.mpr hx
  obtain ⟨n, hn⟩ := List.get_of_mem hx2
  have hlast : xs.length - 1 < (xs.insertionSort (· ≤ ·)).length := by
    rw [length_sort]
    have := List.length_pos.mpr (List.ne_nil_of_mem hx)
    omega
  have hle : n.val ≤ xs.length - 1 := by
    have h1 := n.isLt
    have h2 := length_sort xs
    omega
  have h := getD_mono_of_sorted (sorted_sort xs) hle hlast 0 0
  rw [List.getD_eq_get _ 0 n.isLt] at h
  have h2 : (xs.insertionSort (· ≤ ·)).get n ≤ listMax xs := h
  rw [hn] at h2
  exact h2

/-! ### Branch lemmas for `calculate_var` and `calculate_cvar` -/

lemma calculate_var_historical (lib : StatsLib) (xs : List ℚ) (c : ℚ) :
    calculate_var lib xs c "historical" =
      (npPercentile xs (100 * (1 - c))).map (fun v : ℚ => (v : ℝ)) := rfl

lemma calculate_var_normal (lib : StatsLib) (xs : List ℚ) (c : ℚ) :
    calculate_var lib xs c "normal" =
      .ok ((npMean xs : ℝ) + npStd xs * lib.stdNormPpf (1 - c)) := rfl

lemma calculate_var_tdist (lib : StatsLib) (xs : List ℚ) (c : ℚ) :
    calculate_var lib xs c "t-dist" = .ok (lib.tPpf (1 - c) (lib.tFit xs)) := rfl

lemma calculate_var_invalid (lib : StatsLib) (xs : List ℚ) (c : ℚ) {m : String}
    (h1 : m ≠ "historical") (h2 : m ≠ "normal") (h3 : m ≠ "t-dist") :
    calculate_var lib xs c m = .error .invalidMethod := by
  rw [calculate_var, if_neg h1, if_neg h2, if_neg h3]

lemma cast_list_sum (l : List ℚ) :
    (l.map (fun x : ℚ => (x : ℝ))).sum = ((l.sum : ℚ) : ℝ) := by
  induction l with
  | nil => simp
  | cons a t ih => simp only [List.map_cons, List.sum_cons, Rat.cast_add, ih]

/-- The rational-valued form of `calculate_cvar`: the real-number arithmetic it
performs is the cast of the exact rational tail mean. -/
lemma calculate_cvar_eq (lib : StatsLib) (xs : List ℚ) (c : ℚ) :
    calculate_cvar lib xs c = (npPercentile xs (100 * (1 - c))).map (fun v : ℚ =>
      (((xs.filter (fun x : ℚ => decide (x ≤ v))).sum /
        ((xs.filter (fun x : ℚ => decide (x ≤ v))).length : ℚ) : ℚ) : ℝ)) := by
  rw [calculate_cvar, calculate_var_historical]
  cases hnp : npPercentile xs (100 * (1 - c)) with
  | error e => rfl
  | ok v =>
    simp only [Except.map]
    congr 1
    have hfilter : (xs.filter (fun x : ℚ => decide ((x : ℝ) ≤ ((v : ℚ) : ℝ)))) =
        xs.filter (fun x : ℚ => decide (x ≤ v)) := by
      apply List.filter_congr
      intro x _
      exact decide_eq_decide.mpr Rat.cast_le
    rw [hfilter, cast_list_sum, Rat.cast_div, Rat.cast_natCast]

lemma mean_le_of_all_le {l : List ℚ} {v : ℚ} (hne : l ≠ []) (h : ∀ x ∈ l, x ≤ v) :
    l.sum / (l.length : ℚ) ≤ v := by
  have hlen : 0 < (l.length : ℚ) := by exact_mod_cast List.length_pos.mpr hne
  rw [div_le_iff hlen]
  have hsum : l.sum ≤ l.length • v := List.sum_le_card_nsmul l v h
  rw [nsmul_eq_mul] at hsum
  linarith

/-! ### Claim C1 -/

/-- The historical estimator as the specification words it: the
linear-interpolated empirical percentile — sort the series ascending and, at
percentile `p`, form the convex combination of the two order statistics
adjacent to the virtual index `h = p/100 * (n-1)`. -/
def empiricalPercentile (r : List ℚ) (p : ℚ) : ℚ :=
  let s := r.insertionSort (· ≤ ·)
  let h := p / 100 * ((s.length : ℚ) - 1)
  (1 - (h - (⌊h⌋₊ : ℚ))) * s.getD ⌊h⌋₊ 0 +
    (h - (⌊h⌋₊ : ℚ)) * s.getD (⌊h⌋₊ + 1) (s.getD ⌊h⌋₊ 0)

lemma perc_eval_C1 :
    npPercentile [-5/100, -2/100, 1/100, 3/100, 4/100] (100 * (1 - 8/10)) =
      .ok (-13/500) := by
  rw [npPercentile_ok (by norm_num) (by norm_num) (by simp)]
  have hs : ([-5/100, -2/100, 1/100, 3/100, 4/100] : List ℚ).insertionSort (· ≤ ·)
      = [-5/100, -2/100, 1/100, 3/100, 4/100] := by
    norm_num [List.insertionSort, List.orderedInsert]
  rw [hs, interp]
  have hf : ⌊((100 * (1 - 8/10) : ℚ) / 100 *
      ((([-5/100, -2/100, 1/100, 3/100, 4/100] : List ℚ).length : ℚ) - 1))⌋₊ = 0 := by
    norm_num
  rw [hf]
  norm_num [List.getD]

/-- Claim C1, counterexample: for the series `[-0.05, -0.02, 0.01, 0.03, 0.04]`
and confidence level `0.8`, `calculate_var` with the historical method returns
exactly `-0.026 = -13/500`, which is not within `0.001` of the value `-0.032`
asserted by the claim. -/
theorem C1_counterexample :
    calculate_var trivLib [-5/100, -2/100, 1/100, 3/100, 4/100] (8/10) "historical" =
      .ok ((-13/500 : ℚ) : ℝ) ∧
    ¬ |(-13/500 : ℚ) - (-32/1000)| < 1/1000 := by
  constructor
  · rw [calculate_var_historical, perc_eval_C1]
    rfl
  · rw [show |(-13/500 : ℚ) - (-32/1000)| = 3/500 by norm_num [abs]]
    norm_num

/-- Claim C1, amended: for every nonempty return series and confidence level
in (0,1), `calculate_var` with the historical method returns the
linear-interpolated empirical percentile of the series at `100*(1-c)` (on the
claim's example series at `c = 0.8` this value is `-0.026`, not `-0.032`). -/
theorem C1_historical_is_percentile (lib : StatsLib) (r : List ℚ) (c : ℚ)
    (hne : r ≠ []) (hc0 : 0 < c) (hc1 : c < 1) :
    calculate_var lib r c "historical" =
      .ok ((empiricalPercentile r (100 * (1 - c)) : ℚ) : ℝ) := by
  rw [calculate_var_historical,
    npPercentile_ok (by linarith) (by linarith) hne]
  show Except.ok _ = _
  congr 1
  rw [interp]
  simp only [empiricalPercentile, length_sort]
  ring

lemma series_C1_ne_nil : ([-5/100, -2/100, 1/100, 3/100, 4/100] : List ℚ) ≠ [] := by simp

lemma c08_pos : (0 : ℚ) < 8/10 := by norm_num

lemma c08_lt_one : (8/10 : ℚ) < 1 := by norm_num

/-- Witness for C1's amended theorem at the claim's concrete input. -/
theorem C1_witness :
    calculate_var trivLib [-5/100, -2/100, 1/100, 3/100, 4/100] (8/10) "historical" =
      .ok ((empiricalPercentile [-5/100, -2/100, 1/100, 3/100, 4/100]
        (100 * (1 - 8/10)) : ℚ) : ℝ) :=
  C1_historical_is_percentile trivLib _ _ series_C1_ne_nil c08_pos c08_lt_one

/-! ### Claims C4, C5, C9 -/

lemma npPercentile_zero {xs : List ℚ} (hne : xs ≠ []) :
    npPercentile xs 0 = .ok (listMin xs) := by
  rw [npPercentile_ok le_rfl (by norm_num) hne]
  congr 1
  have h0 : (0 : ℚ) / 100 * ((xs.length : ℚ) - 1) = 0 := by ring
  rw [h0, interp]
  simp [listMin]

lemma npPercentile_hundred {xs : List ℚ} (hne : xs ≠ []) :
    npPercentile xs 100 = .ok (listMax xs) := by
  rw [npPercentile_ok (by norm_num) le_rfl hne]
  congr 1
  have hn : 1 ≤ xs.length := List.length_pos.mpr hne
  have h100 : (100 : ℚ) / 100 * ((xs.length : ℚ) - 1) = ((xs.length - 1 : ℕ) : ℚ) := by
    rw [Nat.cast_sub hn]
    push_cast
    ring
  rw [h100, interp, Nat.floor_natCast]
  simp [listMax]

/-- Claim C4, counterexample: the confidence level `0` lies outside the open
interval `(0,1)`, yet `calculate_var` does not fail — the historical method
returns the sample maximum (here `0.03`). -/
theorem C4_counterexample :
    calculate_var trivLib [1/100, 3/100] 0 "historical" = .ok ((3/100 : ℚ) : ℝ) := by
  rw [calculate_var_historical, show (100 : ℚ) * (1 - 0) = 100 by norm_num,
    npPercentile_hundred (by simp)]
  rw [show listMax [1/100, 3/100] = 3/100 by
    norm_num [listMax, List.insertionSort, List.orderedInsert, List.getD]]
  rfl

/-- Claim C4, amended: `calculate_var` performs no explicit input validation.
With the historical method a confidence level of exactly `0` or `1` is
accepted and yields the sample maximum resp. minimum; a confidence level
outside `[0,1]` only fails inside `np.percentile` with its generic
out-of-range error, and an empty series only fails inside `np.percentile`
with its empty-array error — neither is a dedicated `InvalidParameter` or
`InsufficientData` failure. -/
theorem C4_no_validation (lib : StatsLib) (r : List ℚ) (c : ℚ) (hne : r ≠ []) :
    (calculate_var lib r 0 "historical" = .ok ((listMax r : ℚ) : ℝ) ∧
      calculate_var lib r 1 "historical" = .ok ((listMin r : ℚ) : ℝ)) ∧
    (c < 0 ∨ 1 < c → calculate_var lib r c "historical" = .error .percentileRange) ∧
    (0 ≤ c → c ≤ 1 →
      calculate_var lib ([] : List ℚ) c "historical" = .error .emptyData) := by
  refine ⟨⟨?_, ?_⟩, ?_, ?_⟩
  · rw [calculate_var_historical, show (100 : ℚ) * (1 - 0) = 100 by norm_num,
      npPercentile_hundred hne]
    rfl
  · rw [calculate_var_historical, show (100 : ℚ) * (1 - 1) = 0 by norm_num,
      npPercentile_zero hne]
    rfl
  · intro hc
    have hcond : (100 * (1 - c) : ℚ) < 0 ∨ (100 : ℚ) < 100 * (1 - c) := by
      rcases hc with h | h
      · right
        linarith
      · left
        linarith
    rw [calculate_var_historical, npPercentile, if_pos hcond]
    rfl
  · intro h0 h1
    have hcond : ¬((100 * (1 - c) : ℚ) < 0 ∨ (100 : ℚ) < 100 * (1 - c)) := by
      push_neg
      constructor <;> linarith
    rw [calculate_var_historical, npPercentile, if_neg hcond, if_pos rfl]
    rfl

/-- Witness for C4's amended theorem at concrete inputs. -/
theorem C4_witness :
    calculate_var trivLib [1/100, 3/100] (3/2) "historical" =
      .error .percentileRange ∧
    calculate_var trivLib ([] : List ℚ) (1/2) "historical" = .error .emptyData :=
  ⟨(C4_no_validation trivLib [1/100, 3/100] (3/2) (by simp)).2.1
      (Or.inr (by norm_num)),
   (C4_no_validation trivLib [1/100, 3/100] (1/2) (by simp)).2.2
      (by norm_num) (by norm_num)⟩

/-- Claim C5, counterexample: the method string `'student_t'` named by the
claim is not recognized by `calculate_var` — it raises the invalid-method
`ValueError` instead of fitting a Student-t distribution. -/
theorem C5_counterexample :
    calculate_var trivLib [-5/100, -2/100, 1/100, 3/100, 4/100] (95/100)
      "student_t" = .error .invalidMethod := rfl

/-- Claim C5, amended: the recognized method string for the Student-t
estimator is `'t-dist'`, not `'student_t'`; under `'t-dist'` the code returns
the library's Student-t inverse CDF at `1 - c` applied to the library's
maximum-likelihood fit of the return series, while `'student_t'` fails with
the invalid-method error. -/
theorem C5_tdist_branch (lib : StatsLib) (r : List ℚ) (c : ℚ) :
    calculate_var lib r c "student_t" = .error .invalidMethod ∧
    calculate_var lib r c "t-dist" = .ok (lib.tPpf (1 - c) (lib.tFit r)) :=
  ⟨calculate_var_invalid lib r c (by decide) (by decide) (by decide),
   calculate_var_tdist lib r c⟩

/-- Claim C9 (confirmed): for any method string other than the three
recognized values `'historical'`, `'normal'`, `'t-dist'`, `calculate_var`
fails with the invalid-method error, and the result does not depend on the
library, the return series or the confidence level — no partial estimation
work is observable. -/
theorem C9_invalid_method (lib : StatsLib) (r : List ℚ) (c : ℚ) (m : String)
    (h1 : m ≠ "historical") (h2 : m ≠ "normal") (h3 : m ≠ "t-dist") :
    calculate_var lib r c m = .error .invalidMethod ∧
    ∀ (lib2 : StatsLib) (r2 : List ℚ) (c2 : ℚ),
      calculate_var lib r c m = calculate_var lib2 r2 c2 m := by
  have he := calculate_var_invalid lib r c h1 h2 h3
  exact ⟨he, fun lib2 r2 c2 => by
    rw [he, calculate_var_invalid lib2 r2 c2 h1 h2 h3]⟩

/-- Witness for C9 at a concrete unrecognized method string. -/
theorem C9_witness :
    calculate_var trivLib [1/100] (95/100) "quantile" = .error .invalidMethod :=
  (C9_invalid_method trivLib [1/100] (95/100) "quantile"
    (by decide) (by decide) (by decide)).1

/-! ### Claims C7 and C10 -/

lemma historical_threshold {lib : StatsLib} {r : List ℚ} {c : ℚ} (hne : r ≠ [])
    (hc0 : 0 < c) (hc1 : c < 1) :
    calculate_var lib r c "historical" =
      .ok ((interp (r.insertionSort (· ≤ ·))
        ((100 * (1 - c)) / 100 * ((r.length : ℚ) - 1)) : ℚ) : ℝ) := by
  rw [calculate_var_historical,
    npPercentile_ok (by linarith) (by linarith) hne]
  rfl

lemma tail_facts {r : List ℚ} {c : ℚ} (hne : r ≠ []) (hc0 : 0 < c) (hc1 : c < 1) :
    listMin r ≤ interp (r.insertionSort (· ≤ ·))
        ((100 * (1 - c)) / 100 * ((r.length : ℚ) - 1)) ∧
      interp (r.insertionSort (· ≤ ·))
        ((100 * (1 - c)) / 100 * ((r.length : ℚ) - 1)) ≤ listMax r :=
  npPercentile_between hne (by linarith) (by linarith)
    (npPercentile_ok (by linarith) (by linarith) hne)

/-- Claim C7 (confirmed): for every nonempty return series and confidence
level in (0,1), the conditional VaR — the mean of the returns at or below the
historical VaR threshold — is at most the historical VaR itself. -/
theorem C7_cvar_le_var (lib : StatsLib) (r : List ℚ) (c : ℚ) (hne : r ≠ [])
    (hc0 : 0 < c) (hc1 : c < 1) (cv v : ℝ)
    (hcv : calculate_cvar lib r c = .ok cv)
    (hv : calculate_var lib r c "historical" = .ok v) : cv ≤ v := by
  have h0 : (0 : ℚ) ≤ 100 * (1 - c) := by linarith
  have h1 : (100 * (1 - c) : ℚ) ≤ 100 := by linarith
  rw [historical_threshold hne hc0 hc1] at hv
  rw [calculate_cvar_eq, npPercentile_ok h0 h1 hne] at hcv
  simp only [Except.map] at hcv
  injection hv with hv
  injection hcv with hcv
  have hmin_le := (tail_facts hne hc0 hc1).1
  revert hv hcv hmin_le
  generalize interp (r.insertionSort (· ≤ ·))
    ((100 * (1 - c)) / 100 * ((r.length : ℚ) - 1)) = t
  intro hcv hv hmin_le
  have hmem : listMin r ∈ r.filter (fun x : ℚ => decide (x ≤ t)) :=
    List.mem_filter.mpr ⟨listMin_mem hne, decide_eq_true hmin_le⟩
  have hfne : r.filter (fun x : ℚ => decide (x ≤ t)) ≠ [] := List.ne_nil_of_mem hmem
  have hall : ∀ x ∈ r.filter (fun x : ℚ => decide (x ≤ t)), x ≤ t := by
    intro x hx
    exact of_decide_eq_true (List.mem_filter.mp hx).2
  have hmean := mean_le_of_all_le hfne hall
  rw [← hv, ← hcv]
  exact Rat.cast_le.mpr hmean

/-- Claim C10 (confirmed): for every nonempty return series and confidence
level in (0,1), the historical VaR threshold lies between the minimum and the
maximum of the series, so the tail set of returns at or below it is nonempty
and `calculate_cvar` returns the well-defined mean of that nonempty tail. -/
theorem C10_threshold_in_range (lib : StatsLib) (r : List ℚ) (c : ℚ) (hne : r ≠ [])
    (hc0 : 0 < c) (hc1 : c < 1) :
    ∃ v : ℚ, calculate_var lib r c "historical" = .ok ((v : ℚ) : ℝ) ∧
      listMin r ≤ v ∧ v ≤ listMax r ∧
      r.filter (fun x : ℚ => decide (x ≤ v)) ≠ [] ∧
      calculate_cvar lib r c =
        .ok (((r.filter (fun x : ℚ => decide (x ≤ v))).sum /
          ((r.filter (fun x : ℚ => decide (x ≤ v))).length : ℚ) : ℚ) : ℝ) := by
  have h0 : (0 : ℚ) ≤ 100 * (1 - c) := by linarith
  have h1 : (100 * (1 - c) : ℚ) ≤ 100 := by linarith
  refine ⟨interp (r.insertionSort (· ≤ ·))
    ((100 * (1 - c)) / 100 * ((r.length : ℚ) - 1)),
    historical_threshold hne hc0 hc1,
    (tail_facts hne hc0 hc1).1, (tail_facts hne hc0 hc1).2, ?_, ?_⟩
  · exact List.ne_nil_of_mem (List.mem_filter.mpr
      ⟨listMin_mem hne, decide_eq_true (tail_facts hne hc0 hc1).1⟩)
  · rw [calculate_cvar_eq, npPercentile_ok h0 h1 hne]
    rfl

lemma perc_eval_half : npPercentile [-1/100, 1/100] (100 * (1 - 1/2)) = .ok 0 := by
  rw [npPercentile_ok (by norm_num) (by norm_num) (by simp)]
  have hs : ([-1/100, 1/100] : List ℚ).insertionSort (· ≤ ·) = [-1/100, 1/100] := by
    norm_num [List.insertionSort, List.orderedInsert]
  rw [hs, interp]
  have hf : ⌊((100 * (1 - 1/2) : ℚ) / 100 *
      ((([-1/100, 1/100] : List ℚ).length : ℚ) - 1))⌋₊ = 0 := by
    norm_num
  rw [hf]
  norm_num [List.getD]

lemma var_eval_half (lib : StatsLib) :
    calculate_var lib [-1/100, 1/100] (1/2) "historical" = .ok ((0 : ℚ) : ℝ) := by
  rw [calculate_var_historical, perc_eval_half]
  rfl

lemma cvar_eval_half :
    calculate_cvar trivLib [-1/100, 1/100] (1/2) = .ok ((-1/100 : ℚ) : ℝ) := by
  rw [calculate_cvar_eq, perc_eval_half]
  have hfil : ([-1/100, 1/100] : List ℚ).filter (fun x : ℚ => decide (x ≤ 0)) =
      [-1/100] := by
    norm_num [List.filter]
  simp only [Except.map, hfil]
  norm_num

lemma series2_ne_nil : ([-1/100, 1/100] : List ℚ) ≠ [] := by simp

lemma half_pos : (0 : ℚ) < 1/2 := by norm_num

lemma half_lt_one : (1/2 : ℚ) < 1 := by norm_num

/-- Witness for C7 at a concrete series and confidence level. -/
theorem C7_witness : ((-1/100 : ℚ) : ℝ) ≤ ((0 : ℚ) : ℝ) :=
  C7_cvar_le_var trivLib [-1/100, 1/100] (1/2) series2_ne_nil half_pos half_lt_one
    _ _ cvar_eval_half (var_eval_half trivLib)

/-- Witness for C10 at a concrete series and confidence level. -/
theorem C10_witness :
    ∃ v : ℚ, calculate_var trivLib [-1/100, 1/100] (1/2) "historical" =
        .ok ((v : ℚ) : ℝ) ∧
      listMin [-1/100, 1/100] ≤ v ∧ v ≤ listMax [-1/100, 1/100] ∧
      ([-1/100, 1/100] : List ℚ).filter (fun x : ℚ => decide (x ≤ v)) ≠ [] ∧
      calculate_cvar trivLib [-1/100, 1/100] (1/2) =
        .ok (((([-1/100, 1/100] : List ℚ).filter (fun x : ℚ => decide (x ≤ v))).sum /
          ((([-1/100, 1/100] : List ℚ).filter
            (fun x : ℚ => decide (x ≤ v))).length : ℚ) : ℚ) : ℝ) :=
  C10_threshold_in_range trivLib [-1/100, 1/100] (1/2) series2_ne_nil half_pos
    half_lt_one

/-! ### Claims C2 and C6 -/

/-- The Kupiec likelihood function as the specification words it:
`L(p) = (1-p)^(n-failures) * p^failures`. -/
noncomputable def kupiecLikelihood (p : ℝ) (n failures : ℕ) : ℝ :=
  (1 - p) ^ (n - failures) * p ^ failures

/-- The Kupiec proportion-of-failures test as the specification words it:
count the returns strictly below the VaR estimate, set
`p_observed = failures/n` and `p_expected = 1 - confidenceLevel`, form
`LR = -2*(ln L(p_observed) - ln L(p_expected))`, and pass exactly when
`LR < 5.024`. -/
noncomputable def kupiec_test_spec (returns : List ℚ)
    (varEstimate confidenceLevel : ℚ) : Prop :=
  let failures := (returns.filter (fun x => decide (x < varEstimate))).length
  let n := returns.length
  let p_observed : ℝ := (failures : ℝ) / (n : ℝ)
  let p_expected : ℝ := 1 - (confidenceLevel : ℝ)
  let LR : ℝ :=
    -2 * (Real.log (kupiecLikelihood p_observed n failures)
        - Real.log (kupiecLikelihood p_expected n failures))
  LR < 5.024

/-- Claim C2 (confirmed): `kupiec_test` counts exceedances as the returns
strictly below the VaR estimate, computes the likelihood-ratio statistic
`-2*(ln L(p_observed) - ln L(p_expected))` with
`L(p) = (1-p)^(n-failures) * p^failures` and `p_expected = 1 - c`, and passes
exactly when the statistic is below the critical value `5.024` — it agrees
with the specification's formulation of the test. -/
theorem C2_kupiec_matches_spec (r : List ℚ) (v c : ℚ) :
    kupiec_test r v c ↔ kupiec_test_spec r v c := by
  simp only [kupiec_test, kupiec_LR, kupiec_test_spec, kupiecLikelihood,
    List.countP_eq_length_filter]

/-- Claim C6 (confirmed): with a nonempty series, zero exceedances and
confidence level in (0,1), both likelihood factors of the Kupiec statistic
are strictly positive (the `0^0` case evaluates to `1`, so no logarithm of
zero is taken) and the test deterministically passes. -/
theorem C6_kupiec_zero_failures (r : List ℚ) (v c : ℚ) (hne : r ≠ [])
    (hf : r.countP (fun x => decide (x < v)) = 0) (hc0 : 0 < c) (hc1 : c < 1) :
    ((0 : ℝ) < (1 - (r.countP (fun x => decide (x < v)) : ℝ) / (r.length : ℝ)) ^
        (r.length - r.countP (fun x => decide (x < v))) *
        ((r.countP (fun x => decide (x < v)) : ℝ) / (r.length : ℝ)) ^
        (r.countP (fun x => decide (x < v)))) ∧
    ((0 : ℝ) < (1 - (1 - (c : ℝ))) ^
        (r.length - r.countP (fun x => decide (x < v))) *
        (1 - (c : ℝ)) ^ (r.countP (fun x => decide (x < v)))) ∧
    kupiec_test r v c := by
  have hcR0 : (0 : ℝ) < (c : ℝ) := by exact_mod_cast hc0
  have hcR1 : (c : ℝ) ≤ 1 := by exact_mod_cast hc1.le
  refine ⟨?_, ?_, ?_⟩
  · rw [hf]
    norm_num
  · rw [hf, pow_zero, mul_one, sub_sub_cancel]
    exact pow_pos hcR0 _
  · simp only [kupiec_test, kupiec_LR, hf, Nat.cast_zero, zero_div, sub_zero,
      pow_zero, mul_one, one_pow, Real.log_one, sub_sub_cancel, Real.log_pow]
    have hlog : Real.log (c : ℝ) ≤ 0 := Real.log_nonpos hcR0.le hcR1
    have hprod : (r.length : ℝ) * Real.log (c : ℝ) ≤ 0 :=
      mul_nonpos_iff.mpr (Or.inl ⟨Nat.cast_nonneg r.length, hlog⟩)
    nlinarith [hprod]

lemma countP_single_zero :
    ([1/100] : List ℚ).countP (fun x => decide (x < 0)) = 0 := by
  simp

/-- Witness for C6 at a concrete series with no exceedances. -/
theorem C6_witness :
    ((0 : ℝ) < (1 - (([1/100] : List ℚ).countP (fun x => decide (x < 0)) : ℝ) /
          ((([1/100] : List ℚ).length : ℕ) : ℝ)) ^
        (([1/100] : List ℚ).length -
          ([1/100] : List ℚ).countP (fun x => decide (x < 0))) *
        ((([1/100] : List ℚ).countP (fun x => decide (x < 0)) : ℝ) /
          ((([1/100] : List ℚ).length : ℕ) : ℝ)) ^
        (([1/100] : List ℚ).countP (fun x => decide (x < 0)))) ∧
    ((0 : ℝ) < (1 - (1 - ((1/2 : ℚ) : ℝ))) ^
        (([1/100] : List ℚ).length -
          ([1/100] : List ℚ).countP (fun x => decide (x < 0))) *
        (1 - ((1/2 : ℚ) : ℝ)) ^
        (([1/100] : List ℚ).countP (fun x => decide (x < 0)))) ∧
    kupiec_test [1/100] 0 (1/2) :=
  C6_kupiec_zero_failures [1/100] 0 (1/2) (by simp) countP_single_zero
    half_pos half_lt_one

/-! ### Claim C3 -/

/-- Claim C3 (confirmed): for any fixed shock matrix, the Monte Carlo
simulation's result is the portfolio value minus the entry at index
`⌊0.05 * numPaths⌋` of the ascending sort of the terminal values, where each
path's terminal value is `portfolioValue * exp(Σ_days (mu - 0.5σ² + σ·shock))`
— the product of per-day exponentials equals the exponential of the summed
log-returns — and the index is a valid position of the path list. -/
theorem C3_monte_carlo (V0 : ℝ) (r : List ℚ) (days sims : ℕ)
    (shocks : Fin days → Fin sims → ℝ) (hs : 1 ≤ sims) :
    monte_carlo_var V0 r days sims shocks =
      V0 - ((List.ofFn fun j => V0 * Real.exp (∑ d,
          ((npMean r : ℝ) - 0.5 * npStd r ^ 2 + npStd r * shocks d j))).insertionSort
        (· ≤ ·)).getD ⌊(0.05 : ℚ) * (sims : ℚ)⌋₊ 0 ∧
    ⌊(0.05 : ℚ) * (sims : ℚ)⌋₊ < sims ∧
    List.Sorted (· ≤ ·) ((List.ofFn fun j => V0 * Real.exp (∑ d,
        ((npMean r : ℝ) - 0.5 * npStd r ^ 2 + npStd r * shocks d j))).insertionSort
      (· ≤ ·)) ∧
    List.Perm ((List.ofFn fun j => V0 * Real.exp (∑ d,
        ((npMean r : ℝ) - 0.5 * npStd r ^ 2 + npStd r * shocks d j))).insertionSort
      (· ≤ ·))
      (List.ofFn fun j => V0 * Real.exp (∑ d,
        ((npMean r : ℝ) - 0.5 * npStd r ^ 2 + npStd r * shocks d j))) := by
  have hlist : (List.ofFn fun j => V0 * ∏ d,
      Real.exp ((npMean r : ℝ) - 0.5 * npStd r ^ 2 + npStd r * shocks d j)) =
      (List.ofFn fun j => V0 * Real.exp (∑ d,
        ((npMean r : ℝ) - 0.5 * npStd r ^ 2 + npStd r * shocks d j))) := by
    congr 1
    funext j
    rw [Real.exp_sum]
  refine ⟨?_, ?_, List.sorted_insertionSort _ _, List.perm_insertionSort _ _⟩
  · simp only [monte_carlo_var]
    rw [hlist]
  · have hsq : (0 : ℚ) < (sims : ℚ) := by exact_mod_cast hs
    have hlt : (0.05 : ℚ) * (sims : ℚ) < (sims : ℚ) := by nlinarith
    exact (Nat.floor_lt (by positivity)).mpr hlt

/-- Witness for C3 at a concrete one-day, one-path configuration. -/
theorem C3_witness :
    monte_carlo_var 1 [1/100] 1 1 (fun _ _ => 0) =
      1 - ((List.ofFn fun j : Fin 1 => (1 : ℝ) * Real.exp (∑ d : Fin 1,
          ((npMean [1/100] : ℝ) - 0.5 * npStd [1/100] ^ 2 +
            npStd [1/100] * 0))).insertionSort
        (· ≤ ·)).getD ⌊(0.05 : ℚ) * ((1 : ℕ) : ℚ)⌋₊ 0 :=
  (C3_monte_carlo 1 [1/100] 1 1 (fun _ _ => 0) (le_refl 1)).1

/-! ### Claim C8 -/

/-- Claim C8 (confirmed): for a fixed method and fixed nonempty series, and a
library whose quantile functions are monotone in the probability (as the
scipy normal and Student-t quantile functions are), the VaR estimate at the
higher confidence level is at most the estimate at the lower one — the loss
quantile is at least as extreme. Unrecognized methods hold vacuously since
`calculate_var` returns no value for them. -/
theorem C8_var_monotone (lib : StatsLib)
    (hnorm : ∀ p q : ℚ, p ≤ q → lib.stdNormPpf p ≤ lib.stdNormPpf q)
    (ht : ∀ (p q : ℚ) (prm : ℝ × ℝ × ℝ), p ≤ q → lib.tPpf p prm ≤ lib.tPpf q prm)
    (r : List ℚ) (c1 c2 : ℚ) (m : String) (hne : r ≠ [])
    (hc0 : 0 < c1) (h12 : c1 ≤ c2) (hc1 : c2 < 1) (v1 v2 : ℝ)
    (e1 : calculate_var lib r c1 m = .ok v1)
    (e2 : calculate_var lib r c2 m = .ok v2) : v2 ≤ v1 := by
  have hc1' : c1 < 1 := lt_of_le_of_lt h12 hc1
  have hc0' : 0 < c2 := lt_of_lt_of_le hc0 h12
  by_cases hm1 : m = "historical"
  · subst hm1
    rw [historical_threshold hne hc0 hc1'] at e1
    rw [historical_threshold hne hc0' hc1] at e2
    injection e1 with e1
    injection e2 with e2
    rw [← e1, ← e2]
    refine Rat.cast_le.mpr ?_
    have hn : 1 ≤ r.length := List.length_pos.mpr hne
    have hn' : (1 : ℚ) ≤ (r.length : ℚ) := by exact_mod_cast hn
    refine interp_mono (sorted_sort r)
      (virtual_index_bounds hne (q := 100 * (1 - c2)) (by linarith) (by linarith)).1
      ?_ ?_
    · exact mul_le_mul_of_nonneg_right (by linarith) (by linarith)
    · exact (virtual_index_bounds hne (q := 100 * (1 - c1)) (by linarith)
        (by linarith)).2
  · by_cases hm2 : m = "normal"
    · subst hm2
      rw [calculate_var_normal] at e1 e2
      injection e1 with e1
      injection e2 with e2
      rw [← e1, ← e2]
      have hstd : (0 : ℝ) ≤ npStd r := Real.sqrt_nonneg _
      have hppf := hnorm (1 - c2) (1 - c1) (by linarith)
      nlinarith [mul_le_mul_of_nonneg_left hppf hstd]
    · by_cases hm3 : m = "t-dist"
      · subst hm3
        rw [calculate_var_tdist] at e1 e2
        injection e1 with e1
        injection e2 with e2
        rw [← e1, ← e2]
        exact ht (1 - c2) (1 - c1) _ (by linarith)
      · rw [calculate_var_invalid lib r c1 hm1 hm2 hm3] at e1
        exact absurd e1 (fun h => Except.noConfusion h)

/-- Witness for C8 with a concrete monotone library instantiation. -/
theorem C8_witness : ((0 : ℚ) : ℝ) ≤ ((0 : ℚ) : ℝ) :=
  C8_var_monotone monoLib (fun p q h => Rat.cast_le.mpr h)
    (fun p q prm h => Rat.cast_le.mpr h) [-1/100, 1/100] (1/2) (1/2) "historical"
    series2_ne_nil half_pos (le_refl _) half_lt_one _ _
    (var_eval_half monoLib) (var_eval_half monoLib)

end RiskModeling
